import Mathlib

/-!
Shallow embedding of `ptviewer.py` (repository `ti5robotros2/robot_tools`).

The Python core ingests CSV rows of CAN-bus frames, decodes motor positions
and keeps bounded per-channel series for display.  We model:

* `uint_to_float` and `parse_position` (lines 9-22 of the source) as pure
  functions over exact rationals; Python `float` arithmetic is modelled by
  exact rational arithmetic (`ℚ`).
* `CSVHandler.__init__` / `CSVHandler.on_modified` (lines 38-79) as a state
  type plus a step function per row.  Python's in-place list mutation becomes
  explicit state passing; the `try/except (IndexError, ValueError)` block is
  modelled by returning an `Option Rejection` at exactly the statements that
  can raise, preserving the order of the mutations performed before a raise.
* Python strings are modelled as `List Char`; `int(x, 16)` is modelled on
  optionally signed plain hex-digit strings (surrounding whitespace trimmed),
  which covers every field format the source's logs use.
* Python's dict (insertion ordered, as used by `data_dict`) is modelled as an
  association list where a fresh key is registered at the end.
-/

namespace PTViewer

/-- Value of a single hex digit, as accepted by Python's `int(x, 16)`. -/
def hexDigitVal? (c : Char) : Option ℕ :=
  if '0' ≤ c ∧ c ≤ '9' then some (c.toNat - '0'.toNat)
  else if 'a' ≤ c ∧ c ≤ 'f' then some (c.toNat - 'a'.toNat + 10)
  else if 'A' ≤ c ∧ c ≤ 'F' then some (c.toNat - 'A'.toNat + 10)
  else none

/-- Accumulating base-16 reader; `none` as soon as a non-hex character appears. -/
def hexNatAux : List Char → ℕ → Option ℕ
  | [], acc => some acc
  | c :: cs, acc =>
    match hexDigitVal? c with
    | none => none
    | some v => hexNatAux cs (16 * acc + v)

/-- Nonempty all-hex character list to its value, else `none`. -/
def hexNat? (l : List Char) : Option ℕ :=
  match l with
  | [] => none
  | _ => hexNatAux l 0

/-- Drop leading and trailing whitespace, like Python's `str.strip()`. -/
def trimChars (l : List Char) : List Char :=
  ((l.dropWhile Char.isWhitespace).reverse.dropWhile Char.isWhitespace).reverse

/-- Model of Python's `int(x, 16)`: strip, optional sign, base-16 digits;
`none` models the `ValueError` raise. -/
def hexInt? (l : List Char) : Option ℤ :=
  match trimChars l with
  | '-' :: rest => (hexNat? rest).map (fun n => -(n : ℤ))
  | '+' :: rest => (hexNat? rest).map (fun n => (n : ℤ))
  | t => (hexNat? t).map (fun n => (n : ℤ))

/-- Model of Python's `str.split(sep)` for a one-character separator:
every occurrence splits, empty segments are kept. -/
def splitOnChar (sep : Char) : List Char → List (List Char)
  | [] => [[]]
  | c :: cs =>
    match splitOnChar sep cs with
    | [] => [[c]]
    | g :: gs => if c = sep then [] :: g :: gs else (c :: g) :: gs

/-- Helper for `splitWS`: current (reversed) token is the accumulator. -/
def splitWSAux : List Char → List Char → List (List Char)
  | [], acc => if acc = [] then [] else [acc.reverse]
  | c :: cs, acc =>
    if c.isWhitespace then
      if acc = [] then splitWSAux cs [] else acc.reverse :: splitWSAux cs []
    else splitWSAux cs (c :: acc)

/-- Model of Python's no-argument `str.split()`: split on whitespace runs,
dropping empty tokens. -/
def splitWS (l : List Char) : List (List Char) :=
  splitWSAux l []

/-- Source lines 9-12.  `span = x_max - x_min`, `offset = x_min`,
`(float(x_int) * span / float((1 << bits) - 1)) + offset`, over exact
rationals. -/
def uint_to_float (x_int : ℤ) (x_min x_max : ℚ) (bits : ℕ) : ℚ :=
  (x_int : ℚ) * (x_max - x_min) / (((1 <<< bits) - 1 : ℕ) : ℚ) + x_min

/-- Source lines 15-22.  Guard `len(data) != 8 or data[0] != 0x01` (Python
short-circuits, so `data[0]` is only read when the length is 8 — `headD`
gives the same value there); `pos_int = (data[1] << 8) | data[2]` (Python's
`<<` and `|` on unbounded ints are `Int.lor` after a left shift);
`uint_to_float(pos_int, -3.14159, 3.14159, 16)`. -/
def parse_position (data : List ℤ) : Option ℚ :=
  if data.length ≠ 8 ∨ data.headD 0 ≠ 1 then none
  else
    some (uint_to_float (Int.lor ((data.getD 1 0) <<< (8 : ℤ)) (data.getD 2 0))
      (-3.14159) 3.14159 16)

/-- The classified per-row failures; in the source each corresponds to one
`print`-and-skip site inside `on_modified` (the last three are the distinct
statements whose `ValueError` the shared `except` clause catches). -/
inductive Rejection where
  | rowTooShort
  | malformedPayloadField
  | badByteCount
  | badHexByte
  | badChannelId
  | badTimestamp
  deriving DecidableEq

/-- Lookup in the association-list model of `data_dict`, with default. -/
def dictGetD : List (ℤ × List ℚ) → ℤ → List ℚ → List ℚ
  | [], _, v => v
  | (k', v') :: rest, k, v => if k' = k then v' else dictGetD rest k v

/-- Update in the association-list model of `data_dict`; a fresh key is
appended at the end, matching Python dict insertion order. -/
def dictSet : List (ℤ × List ℚ) → ℤ → List ℚ → List (ℤ × List ℚ)
  | [], k, v => [(k, v)]
  | (k', v') :: rest, k, v =>
    if k' = k then (k, v) :: rest else (k', v') :: dictSet rest k v

/-- The mutable state of `CSVHandler` (source lines 38-42): `data_dict` maps
channel id to its position series, `times` is the single shared timestamp
list, `max_points` the retention bound, `last_processed` the ingestion
cursor. -/
structure CSVHandlerState where
  data_dict : List (ℤ × List ℚ)
  times : List ℤ
  max_points : ℕ
  last_processed : ℕ
  deriving DecidableEq

/-- The state `main` builds: empty dict, empty times, cursor 0. -/
def initState (maxPoints : ℕ) : CSVHandlerState :=
  ⟨[], [], maxPoints, 0⟩

/-- Source lines 56-76, from payload-field selection onwards: the body of the
per-row `try` given the already chosen payload descriptor `data_str`.
Mutations happen in source order; a statement that raises `ValueError`
returns the state mutated so far together with the classified rejection. -/
def processRowBody (st : CSVHandlerState) (row : List (List Char))
    (data_str : List Char) : CSVHandlerState × Option Rejection :=
  if '|' ∉ data_str then (st, some .malformedPayloadField)
  else
    let data_hex := splitWS (trimChars ((splitOnChar '|' data_str).getD 1 []))
    if data_hex.length ≠ 8 then (st, some .badByteCount)
    else
      match data_hex.mapM hexInt? with
      | none => (st, some .badHexByte)
      | some data =>
        match hexInt? (row.getD 5 []) with
        | none => (st, some .badChannelId)
        | some can_id =>
          match parse_position data with
          | none => (st, none)
          | some pos =>
            let dict1 :=
              dictSet st.data_dict can_id (dictGetD st.data_dict can_id [] ++ [pos])
            match hexInt? (row.getD 2 []) with
            | none => ({ st with data_dict := dict1 }, some .badTimestamp)
            | some t =>
              let times1 := st.times ++ [t]
              let buf := dictGetD dict1 can_id []
              if buf.length > st.max_points then
                ({ st with data_dict := dictSet dict1 can_id buf.tail,
                           times := times1.tail }, none)
              else
                ({ st with data_dict := dict1, times := times1 }, none)

/-- Source lines 50-78: one iteration of the row loop.  The row-length guard
(line 52) and the payload-field fallback (line 56) come first; note the
fallback can only pick index 8 when the row has exactly 9 fields, which the
guard already excluded. -/
def processRow (st : CSVHandlerState) (row : List (List Char)) :
    CSVHandlerState × Option Rejection :=
  if row.length < 10 then (st, some .rowTooShort)
  else
    processRowBody st row (if row.length > 9 then row.getD 9 [] else row.getD 8 [])

/-- The row loop of `on_modified`, collecting the rejections it prints. -/
def processRows (st : CSVHandlerState) (rows : List (List (List Char))) :
    CSVHandlerState × List Rejection :=
  match rows with
  | [] => (st, [])
  | row :: rest =>
    match processRow st row with
    | (st', none) => processRows st' rest
    | (st', some r) =>
      match processRows st' rest with
      | (st'', rs) => (st'', r :: rs)

/-- Source lines 47-79 after a successful file read: process the rows from
the cursor on, then set the cursor to the total row count unconditionally. -/
def on_modified (st : CSVHandlerState) (rows : List (List (List Char))) :
    CSVHandlerState × List Rejection :=
  match processRows st (rows.drop st.last_processed) with
  | (st', rejs) => ({ st' with last_processed := rows.length }, rejs)

/-- Builds a 10-field row in the log layout of §6: field 2 the timestamp,
field 5 the channel id, field 9 the payload descriptor. -/
def testRow (ts cid payload : String) : List (List Char) :=
  ["0".toList, "1".toList, ts.toList, "3".toList, "4".toList, cid.toList,
   "6".toList, "7".toList, "8".toList, payload.toList]

/-- A valid motor-reply row for channel 1 with timestamp 0xA = 10. -/
def rowChan1 : List (List Char) := testRow "A" "1" "p|01 00 00 00 00 00 00 00"

/-- A valid motor-reply row for channel 2 with timestamp 0xB = 11. -/
def rowChan2 : List (List Char) := testRow "B" "2" "p|01 00 01 00 00 00 00 00"

/-- A row that is valid up to and including position decoding, but whose
timestamp field `"GG"` fails base-16 parsing; channel id 0xA = 10. -/
def rowBadTs : List (List Char) := testRow "GG" "A" "p|01 00 00 00 00 00 00 00"

/-- Channel 1 row with timestamp 0xAA = 170, for the eviction scenario. -/
def rowB170 : List (List Char) := testRow "AA" "1" "p|01 00 00 00 00 00 00 00"

/-- First channel 2 row (timestamp 1) for the eviction scenario. -/
def rowA1 : List (List Char) := testRow "1" "2" "p|01 00 01 00 00 00 00 00"

/-- Second channel 2 row (timestamp 2) for the eviction scenario. -/
def rowA2 : List (List Char) := testRow "2" "2" "p|01 00 02 00 00 00 00 00"

/-- A valid row (channel 1, timestamp 5) followed below by a bad-timestamp
row, for the ingestion-pass scenario. -/
def rowValid9 : List (List Char) := testRow "5" "1" "p|01 00 00 00 00 00 00 00"

/-- A row rejected only at the timestamp parse (`"ZZ"`), channel 2. -/
def rowBadTs9 : List (List Char) := testRow "ZZ" "2" "p|01 00 01 00 00 00 00 00"

/-- C1: the claim says that for every channel, after every completed append,
the stored timestamp series and position series of that channel are the same
length and index-aligned, including runs with several distinct channels.  In
the code `times` is one list shared by all channels, so after ingesting one
valid row for channel 1 and one for channel 2, channel 1 holds 1 position
while the timestamp series holds 2 entries: the lengths differ, refuting the
claim on this input. -/
theorem two_channel_rows_break_times_alignment :
    ((on_modified (initState 100) [rowChan1, rowChan2]).1.data_dict.map
        (fun p => (p.1, p.2.length))) = [(1, 1), (2, 1)] ∧
    (on_modified (initState 100) [rowChan1, rowChan2]).1.times.length = 2 ∧
    (dictGetD (on_modified (initState 100) [rowChan1, rowChan2]).1.data_dict
        1 []).length ≠
      (on_modified (initState 100) [rowChan1, rowChan2]).1.times.length := by
  refine ⟨by decide, by decide, by decide⟩

/-- C2: the claim says a row failing any validation check (including the
timestamp parse) leaves the store completely unchanged.  On `rowBadTs` the
code appends the decoded position to `data_dict[10]` first and only then
parses the timestamp, whose failure raises: the row is rejected with
`badTimestamp`, yet the store now holds one position for channel 10 and no
matching timestamp — rejection is not atomic. -/
theorem bad_timestamp_row_mutates_store :
    (processRow (initState 100) rowBadTs).2 = some .badTimestamp ∧
    ((processRow (initState 100) rowBadTs).1.data_dict.map
        (fun p => (p.1, p.2.length))) = [(10, 1)] ∧
    (processRow (initState 100) rowBadTs).1.times = [] := by
  refine ⟨by decide, by decide, by decide⟩

/-- C5: the claim says appends for channel A never change channel B's series
(timestamps included) and eviction accounting is independent per channel.
With `max_points = 1`, after a channel 1 row (timestamp 170) and two channel
2 rows, channel 2's overflow pops the front of the shared `times` list and
thereby evicts channel 1's timestamp 170, although channel 1's positions are
untouched — appends to one channel do disturb the other's timestamps. -/
theorem append_other_channel_evicts_shared_times :
    ((on_modified (initState 1) [rowB170, rowA1, rowA2]).1.data_dict.map
        (fun p => (p.1, p.2.length))) = [(1, 1), (2, 1)] ∧
    (on_modified (initState 1) [rowB170, rowA1, rowA2]).1.times = [1, 2] ∧
    (170 : ℤ) ∉ (on_modified (initState 1) [rowB170, rowA1, rowA2]).1.times := by
  refine ⟨by decide, by decide, by decide⟩

/-- C9: the claim says a pass over N valid rows plus one malformed row
appends exactly N samples and reports exactly 1 rejection, with the cursor
advanced past everything and no row ever decoded twice.  For N = 1 with the
malformed row failing only at the timestamp parse, the code does report 1
rejection, advances the cursor to 2 and never re-decodes — but it appends a
position for the rejected row as well (2 positions in the store, not N = 1),
because the position is pushed before the timestamp is parsed. -/
theorem ingest_pass_bad_timestamp_still_appends :
    (on_modified (initState 100) [rowValid9, rowBadTs9]).2 =
        [Rejection.badTimestamp] ∧
    ((on_modified (initState 100) [rowValid9, rowBadTs9]).1.data_dict.map
        (fun p => (p.1, p.2.length))) = [(1, 1), (2, 1)] ∧
    (on_modified (initState 100) [rowValid9, rowBadTs9]).1.times = [5] ∧
    (on_modified (initState 100) [rowValid9, rowBadTs9]).1.last_processed = 2 ∧
    on_modified (on_modified (initState 100) [rowValid9, rowBadTs9]).1
        [rowValid9, rowBadTs9] =
      ((on_modified (initState 100) [rowValid9, rowBadTs9]).1, []) := by
  refine ⟨by decide, by decide, by decide, by decide, rfl⟩

/-- A value shifted left by 8 bits combines with a value below `2 ^ 8` by
bitwise `or` exactly as by addition (the bit ranges are disjoint). -/
theorem nat_lor_mul_pow_add (a b : ℕ) (hb : b < 2 ^ 8) :
    (2 ^ 8 * a) ||| b = 2 ^ 8 * a + b := by
  apply Nat.eq_of_testBit_eq
  intro j
  rw [Nat.testBit_or, Nat.testBit_mul_pow_two, Nat.testBit_mul_pow_two_add a hb j]
  by_cases hj : j < 8
  · have h8 : ¬ (8 ≤ j) := by omega
    simp [hj, h8]
  · have h8 : 8 ≤ j := by omega
    have hbj : b.testBit j = false :=
      Nat.testBit_lt_two_pow (lt_of_lt_of_le hb (Nat.pow_le_pow_right (by omega) h8))
    simp [hj, h8, hbj]

/-- Python's `(b1 << 8) | b2` on nonnegative ints with `b2 < 2 ^ 8` equals
`b1 * 2 ^ 8 + b2`. -/
theorem int_lor_shift_eq (x y : ℤ) (hx : 0 ≤ x) (hy0 : 0 ≤ y) (hy : y < 2 ^ 8) :
    Int.lor (x <<< (8 : ℤ)) y = x * 2 ^ 8 + y := by
  obtain ⟨m, rfl⟩ := Int.eq_ofNat_of_zero_le hx
  obtain ⟨n, rfl⟩ := Int.eq_ofNat_of_zero_le hy0
  have hn : n < 2 ^ 8 := by exact_mod_cast hy
  have h1 : ((m : ℤ) <<< (8 : ℤ)) = ((m <<< 8 : ℕ) : ℤ) := by
    show Int.ofNat (Nat.shiftLeft' false m 8) = Int.ofNat (m <<< 8)
    rw [Nat.shiftLeft'_false]
  have h2 : Int.lor ((m <<< 8 : ℕ) : ℤ) ((n : ℕ) : ℤ) = (((m <<< 8) ||| n : ℕ) : ℤ) := rfl
  rw [h1, h2, Nat.shiftLeft_eq, Nat.mul_comm m (2 ^ 8), nat_lor_mul_pow_add m n hn]
  push_cast
  ring

/-- Evaluation helper: the quantizer denominator `(1 << 16) - 1` is 65535. -/
theorem denom_16_eq : (((1 <<< 16) - 1 : ℕ) : ℚ) = 65535 := by
  norm_num [Nat.shiftLeft_eq]

/-- C3, counterexample: the claim fixes `min = -π`, `max = π`, so at
`raw = 0` (payload `01 00 00 ...`) the decoded position would be exactly
`-π`; the code hard-codes `-3.14159`, a rational strictly greater than
`-π`, so the decoded position differs from the claim's value. -/
theorem position_at_raw_zero_ne_neg_pi :
    (((parse_position [1, 0, 0, 0, 0, 0, 0, 0]).getD 0 : ℚ) : ℝ) ≠ -Real.pi := by
  have hp : parse_position [1, 0, 0, 0, 0, 0, 0, 0] = some (-3.14159 : ℚ) := by
    unfold parse_position
    rw [if_neg (by decide)]
    have hg1 : ([1, 0, 0, 0, 0, 0, 0, 0] : List ℤ).getD 1 0 = 0 := by decide
    have hg2 : ([1, 0, 0, 0, 0, 0, 0, 0] : List ℤ).getD 2 0 = 0 := by decide
    rw [hg1, hg2, int_lor_shift_eq 0 0 le_rfl le_rfl (by norm_num)]
    unfold uint_to_float
    rw [denom_16_eq]
    norm_num
  rw [hp, Option.getD_some]
  intro h
  have h2 : ((-3.14159 : ℚ) : ℝ) = -3.14159 := by norm_num
  rw [h2] at h
  have hπ := Real.pi_gt_d6
  linarith

/-- C3, amended: for every accepted motor-reply frame whose two position
bytes are in byte range, the decoded position equals
`raw / (2^16 - 1) * (max - min) + min` where `raw` is the big-endian 16-bit
value of payload bytes 1 and 2 — but with the hard-coded bounds
`min = -3.14159`, `max = 3.14159` (five-decimal approximations of ±π), not
exactly ±π and not exposed as configuration. -/
theorem parse_position_linear_dequantization (d : List ℤ)
    (h8 : d.length = 8) (h0 : d.headD 0 = 1)
    (hb1 : 0 ≤ d.getD 1 0) (_hb1' : d.getD 1 0 < 2 ^ 8)
    (hb2 : 0 ≤ d.getD 2 0) (hb2' : d.getD 2 0 < 2 ^ 8) :
    parse_position d =
      some (((d.getD 1 0 * 2 ^ 8 + d.getD 2 0 : ℤ) : ℚ) / (2 ^ 16 - 1) *
        (3.14159 - (-3.14159)) + (-3.14159)) := by
  unfold parse_position
  rw [if_neg (by rw [h8, h0]; simp)]
  rw [int_lor_shift_eq _ _ hb1 hb2 hb2']
  unfold uint_to_float
  rw [denom_16_eq]
  congr 1
  push_cast
  ring

/-- C3, witness: the amended decoding law evaluated on the concrete frame
`01 12 34 00 00 00 00 00`, whose raw position code is
`0x12 * 256 + 0x34 = 4660`. -/
theorem parse_position_linear_dequantization_witness :
    (([1, 18, 52, 0, 0, 0, 0, 0] : List ℤ).length = 8 ∧
      ([1, 18, 52, 0, 0, 0, 0, 0] : List ℤ).headD 0 = 1) ∧
    parse_position [1, 18, 52, 0, 0, 0, 0, 0] =
      some (((([1, 18, 52, 0, 0, 0, 0, 0] : List ℤ).getD 1 0 * 2 ^ 8 +
          ([1, 18, 52, 0, 0, 0, 0, 0] : List ℤ).getD 2 0 : ℤ) : ℚ) / (2 ^ 16 - 1) *
        (3.14159 - (-3.14159)) + (-3.14159)) :=
  ⟨⟨by decide, by decide⟩,
    parse_position_linear_dequantization [1, 18, 52, 0, 0, 0, 0, 0]
      (by decide) (by decide) (by decide) (by decide) (by decide) (by decide)⟩

/-- C4: with the configured bounds `-3.14159`/`3.14159` and `bits = 16`, the
de-quantizer is exact at both endpoints (`raw = 0 ↦ min`,
`raw = 2^16 - 1 ↦ max`) and monotonically non-decreasing on
`[0, 2^16 - 1]`. -/
theorem uint_to_float_endpoints_monotone :
    uint_to_float 0 (-3.14159) 3.14159 16 = -3.14159 ∧
    uint_to_float (2 ^ 16 - 1) (-3.14159) 3.14159 16 = 3.14159 ∧
    ∀ r s : ℕ, r ≤ s → s ≤ 2 ^ 16 - 1 →
      uint_to_float (r : ℤ) (-3.14159) 3.14159 16 ≤
        uint_to_float (s : ℤ) (-3.14159) 3.14159 16 := by
  refine ⟨?_, ?_, ?_⟩
  · unfold uint_to_float
    rw [denom_16_eq]
    norm_num
  · unfold uint_to_float
    rw [denom_16_eq]
    norm_num
  · intro r s hrs _
    unfold uint_to_float
    rw [denom_16_eq]
    have h : ((r : ℤ) : ℚ) ≤ ((s : ℤ) : ℚ) := by exact_mod_cast hrs
    have hspan : (0 : ℚ) ≤ 3.14159 - -3.14159 := by norm_num
    gcongr

/-- C4, witness: monotonicity instantiated at `raw = 3 ≤ raw = 5`. -/
theorem uint_to_float_endpoints_monotone_witness :
    ((3 : ℕ) ≤ 5 ∧ (5 : ℕ) ≤ 2 ^ 16 - 1) ∧
    uint_to_float ((3 : ℕ) : ℤ) (-3.14159) 3.14159 16 ≤
      uint_to_float ((5 : ℕ) : ℤ) (-3.14159) 3.14159 16 :=
  ⟨⟨by norm_num, by norm_num⟩,
    uint_to_float_endpoints_monotone.2.2 3 5 (by norm_num) (by norm_num)⟩

/-- C10: `parse_position` is total (it is a Lean function into `Option ℚ`,
the model of a Python function that returns `None` or a float and never
raises): it returns `none` exactly when the input's length is not 8 or its
first element is not `0x01`, and returns a value otherwise — the guard is
checked inside `parse_position` itself. -/
theorem parse_position_none_iff (d : List ℤ) :
    (parse_position d = none ↔ d.length ≠ 8 ∨ d.headD 0 ≠ 1) ∧
    (d.length = 8 ∧ d.headD 0 = 1 → (parse_position d).isSome = true) := by
  constructor
  · unfold parse_position
    by_cases h : d.length ≠ 8 ∨ d.headD 0 ≠ 1
    · rw [if_pos h]
      exact iff_of_true rfl h
    · rw [if_neg h]
      exact iff_of_false (by simp) h
  · intro h
    unfold parse_position
    rw [if_neg (by rw [h.1, h.2]; simp)]
    rfl

/-- C10, witness: the guard evaluated on the accepted frame
`01 00 00 00 00 00 00 00`. -/
theorem parse_position_none_iff_witness :
    (([1, 0, 0, 0, 0, 0, 0, 0] : List ℤ).length = 8 ∧
      ([1, 0, 0, 0, 0, 0, 0, 0] : List ℤ).headD 0 = 1) ∧
    (parse_position [1, 0, 0, 0, 0, 0, 0, 0]).isSome = true :=
  ⟨⟨by decide, by decide⟩,
    (parse_position_none_iff [1, 0, 0, 0, 0, 0, 0, 0]).2 ⟨by decide, by decide⟩⟩

/-- A 6-field row, the spec's concrete `RowTooShort` scenario. -/
def shortRow : List (List Char) :=
  ["0".toList, "1".toList, "2".toList, "3".toList, "4".toList, "5".toList]

/-- C6: a row with fewer than 10 fields is rejected as `rowTooShort` with no
sample; a row passing the length check has its payload descriptor taken from
index 9 when present, else index 8 — and since passing the check means at
least 10 fields, index 9 is always the one taken. -/
theorem short_row_rejected_and_descriptor_index
    (st : CSVHandlerState) (row : List (List Char)) :
    (row.length < 10 → processRow st row = (st, some .rowTooShort)) ∧
    (10 ≤ row.length → processRow st row = processRowBody st row (row.getD 9 [])) := by
  constructor
  · intro h
    unfold processRow
    rw [if_pos h]
  · intro h
    unfold processRow
    rw [if_neg (by omega), if_pos (by omega)]

/-- C6, witness: the 6-field row is rejected as too short, and a 10-field
row's descriptor comes from index 9. -/
theorem short_row_rejected_and_descriptor_index_witness :
    (shortRow.length < 10 ∧
      processRow (initState 100) shortRow = (initState 100, some .rowTooShort)) ∧
    (10 ≤ rowChan1.length ∧
      processRow (initState 100) rowChan1 =
        processRowBody (initState 100) rowChan1 (rowChan1.getD 9 [])) :=
  ⟨⟨by decide,
      (short_row_rejected_and_descriptor_index (initState 100) shortRow).1 (by decide)⟩,
    ⟨by decide,
      (short_row_rejected_and_descriptor_index (initState 100) rowChan1).2 (by decide)⟩⟩

/-- A row whose payload parses as 8 hex bytes with tag `0x02`, but whose
channel-id field `"ZZ"` is not base-16. -/
def rowTag2BadChan : List (List Char) := testRow "5" "ZZ" "p|02 00 00 00 00 00 00 00"

/-- A row whose payload parses as 8 hex bytes with tag `0x02` and whose other
fields are all valid (channel id 3). -/
def rowTag2Good : List (List Char) := testRow "5" "3" "p|02 00 00 00 00 00 00 00"

/-- C7, counterexample: the claim says a row whose payload parses as 8 hex
bytes with tag ≠ 0x01 is silently skipped — no sample *and no rejection* —
regardless of the row's other fields.  But the code parses the channel-id
field *before* the tag check, so `rowTag2BadChan` (payload tag `0x02`, 8
valid bytes, channel field `"ZZ"`) records a `badChannelId` rejection. -/
theorem bad_channel_field_rejected_despite_foreign_tag :
    ((splitWS (trimChars ((splitOnChar '|' (rowTag2BadChan.getD 9 [])).getD 1 []))).mapM
        hexInt? = some [2, 0, 0, 0, 0, 0, 0, 0]) ∧
    (processRow (initState 100) rowTag2BadChan).2 = some .badChannelId := by
  refine ⟨by decide, by decide⟩

/-- C7, amended: a row whose payload parses as 8 hex bytes with tag ≠ 0x01
yields no sample and no rejection — provided its channel-id field also parses
as base-16 (the channel id is parsed before the tag check, so a bad channel
field is rejected even for non-motor-reply tags). -/
theorem foreign_tag_row_silently_skipped (st : CSVHandlerState)
    (row : List (List Char)) (data : List ℤ) (cid : ℤ)
    (h10 : 10 ≤ row.length)
    (hpipe : '|' ∈ row.getD 9 [])
    (hlen : (splitWS (trimChars ((splitOnChar '|' (row.getD 9 [])).getD 1 []))).length = 8)
    (hdata : (splitWS (trimChars ((splitOnChar '|' (row.getD 9 [])).getD 1 []))).mapM
        hexInt? = some data)
    (htag : data.headD 0 ≠ 1)
    (hcid : hexInt? (row.getD 5 []) = some cid) :
    processRow st row = (st, none) := by
  unfold processRow
  rw [if_neg (by omega), if_pos (by omega)]
  have hpp : parse_position data = none := by
    unfold parse_position
    rw [if_pos (Or.inr htag)]
  simp only [processRowBody]
  rw [if_neg (not_not_intro hpipe)]
  rw [if_neg (by rw [hlen]; simp)]
  simp only [hdata, hcid, hpp]

/-- C7, witness: the silent skip on the concrete well-formed tag-0x02 row. -/
theorem foreign_tag_row_silently_skipped_witness :
    (10 ≤ rowTag2Good.length ∧ '|' ∈ rowTag2Good.getD 9 [] ∧
      (splitWS (trimChars ((splitOnChar '|' (rowTag2Good.getD 9 [])).getD 1 []))).length = 8 ∧
      (splitWS (trimChars ((splitOnChar '|' (rowTag2Good.getD 9 [])).getD 1 []))).mapM
          hexInt? = some [2, 0, 0, 0, 0, 0, 0, 0] ∧
      ([2, 0, 0, 0, 0, 0, 0, 0] : List ℤ).headD 0 ≠ 1 ∧
      hexInt? (rowTag2Good.getD 5 []) = some 3) ∧
    processRow (initState 100) rowTag2Good = (initState 100, none) :=
  ⟨⟨by decide, by decide, by decide, by decide, by decide, by decide⟩,
    foreign_tag_row_silently_skipped (initState 100) rowTag2Good
      [2, 0, 0, 0, 0, 0, 0, 0] 3 (by decide) (by decide) (by decide) (by decide)
      (by decide) (by decide)⟩

/-- Source lines 71 and 74-76 restricted to one channel's position series:
push the new sample, then pop the single oldest entry if the buffer now
exceeds `max_points`. -/
def appendPos (maxPoints : ℕ) (buf : List ℚ) (x : ℚ) : List ℚ :=
  if (buf ++ [x]).length > maxPoints then (buf ++ [x]).tail else buf ++ [x]

/-- Sliding-window characterization of repeated `appendPos` from any start
buffer not above capacity: the result is the concatenation with the oldest
overflow dropped. -/
theorem appendPos_foldl_general (m : ℕ) (xs : List ℚ) :
    ∀ acc : List ℚ, acc.length ≤ m →
      xs.foldl (appendPos m) acc = (acc ++ xs).drop (acc.length + xs.length - m) := by
  induction xs with
  | nil =>
    intro acc h
    simp only [List.foldl_nil, List.append_nil, List.length_nil, Nat.add_zero]
    rw [Nat.sub_eq_zero_of_le h, List.drop_zero]
  | cons x rest ih =>
    intro acc h
    simp only [List.foldl_cons]
    by_cases hc : (acc ++ [x]).length > m
    · have hstep : appendPos m acc x = (acc ++ [x]).drop 1 := by
        unfold appendPos
        rw [if_pos hc, List.drop_one]
      rw [hstep]
      have hlen : acc.length = m := by
        simp only [List.length_append, List.length_singleton] at hc
        omega
      have hd : ((acc ++ [x]).drop 1).length = m := by
        simp [hlen]
      rw [ih _ (le_of_eq hd), hd]
      have h1 : (acc ++ [x]).drop 1 ++ rest = ((acc ++ [x]) ++ rest).drop 1 :=
        (List.drop_append_of_le_length (by simp)).symm
      rw [h1, List.append_assoc, List.singleton_append, List.drop_drop]
      congr 1
      simp only [List.length_cons]
      omega
    · have hstep : appendPos m acc x = acc ++ [x] := by
        unfold appendPos
        rw [if_neg hc]
      rw [hstep]
      have hlen : (acc ++ [x]).length ≤ m := by omega
      rw [ih _ hlen, List.append_assoc, List.singleton_append]
      congr 1
      simp only [List.length_append, List.length_singleton, List.length_cons,
        List.length_nil]
      omega

/-- C8: for any sequence of appends on one channel starting from an empty
buffer, the buffer length never exceeds `max_points`, and the retained
entries are exactly the most recent `max_points` samples in arrival order
(the suffix of the appended sequence). -/
theorem appendPos_bounded_and_fifo (m : ℕ) (xs : List ℚ) :
    (xs.foldl (appendPos m) []).length ≤ m ∧
    xs.foldl (appendPos m) [] = xs.drop (xs.length - m) := by
  have h := appendPos_foldl_general m xs [] (by simp)
  simp only [List.nil_append, List.length_nil, Nat.zero_add] at h
  refine ⟨?_, h⟩
  rw [h, List.length_drop]
  omega

end PTViewer
